import Mathlib

/-!
Formal model of the mcp-gmap-time repository's core:
`minute_grid` (src/mcp_server/utils.py), the batch-fetch retry engine and
result assembly shared by `eta_series` (src/mcp_server/server.py) and
`run_cli` (src/cli/driveplot_fast.py), and the text chart grid of
`generate_simple_text_plot` / `print_simple_text_plot`.

Modelling conventions:
* timezone-aware datetimes are modelled as absolute minutes (`Int`);
* durations (Python floats holding one-decimal minute values) are `ℚ`,
  and Python `round(x, 1)` is modelled as exact round-half-to-even on `ℚ`;
* Python dicts keyed by datetime are modelled as an insertion-ordered,
  deduplicated key list plus a cell function;
* the thread pool is serialised: completed fetches are merged in task
  order.  The merged table and the failed-task set do not depend on the
  completion order, only the (unobserved) internal order of the retry
  queue does;
* Python exceptions that can escape a function are modelled with `Except`.
-/

namespace GmapTime

/-- One unrolling of the `while cursor <= end` loop of `minute_grid`
(utils.py lines 52-54), per unit of `fuel`.  The loop body appends the
cursor and advances it by `step`; statements quantified over `fuel`
express (non-)termination of the loop. -/
def gridLoop (endT step : Int) : Int → Nat → List Int
  | _, 0 => []
  | cursor, fuel + 1 =>
    if cursor ≤ endT then cursor :: gridLoop endT step (cursor + step) fuel else []

/-- The list produced by the loop of `minute_grid` when `1 ≤ step`:
`((endT - startT) / step).toNat + 1` iterations are exactly enough fuel
for the loop to run to completion. -/
def minuteGridList (startT endT step : Int) : List Int :=
  gridLoop endT step startT (((endT - startT) / step).toNat + 1)

/-- Model of `minute_grid` (utils.py lines 29-55): instants as absolute
minutes; raises `ValueError("end must be after start")` when `end <= start`;
performs no validation of `interval_minutes`. -/
def minute_grid (startT endT step : Int) : Except String (List Int) :=
  if endT ≤ startT then Except.error "end must be after start"
  else Except.ok (minuteGridList startT endT step)

theorem gridLoop_stop (endT step cursor : Int) (h : ¬ cursor ≤ endT) :
    ∀ fuel, gridLoop endT step cursor fuel = [] := by
  intro fuel
  cases fuel <;> simp [gridLoop, h]

/-- Closed form of the grid loop for positive step and enough fuel: the
arithmetic progression `cursor, cursor + step, …` of length
`(endT - cursor) / step + 1`. -/
theorem gridLoop_closed (endT step : Int) (hs : 1 ≤ step) :
    ∀ (fuel : Nat) (cursor : Int), cursor ≤ endT →
      ((endT - cursor) / step).toNat + 1 ≤ fuel →
      gridLoop endT step cursor fuel
        = (List.range (((endT - cursor) / step).toNat + 1)).map
            (fun k : Nat => cursor + (k : Int) * step) := by
  intro fuel
  induction fuel with
  | zero => intro cursor hc hf; omega
  | succ n ih =>
    intro cursor hc hf
    have hstep : (0 : Int) < step := by omega
    by_cases h2 : cursor + step ≤ endT
    · have hnum : (0 : Int) ≤ endT - (cursor + step) := by omega
      have hdiv : (endT - cursor) / step = (endT - (cursor + step)) / step + 1 := by
        have h1 := Int.add_mul_ediv_right (endT - (cursor + step)) 1
          (by omega : step ≠ 0)
        rw [show endT - (cursor + step) + 1 * step = endT - cursor from by ring] at h1
        exact h1
      have hq : (0 : Int) ≤ (endT - (cursor + step)) / step :=
        Int.ediv_nonneg hnum (le_of_lt hstep)
      have htn : ((endT - cursor) / step).toNat
          = ((endT - (cursor + step)) / step).toNat + 1 := by omega
      have hih := ih (cursor + step) h2 (by omega)
      simp only [gridLoop, if_pos hc]
      rw [htn, List.range_succ_eq_map, List.map_cons, List.map_map, hih]
      congr 1
      · simp
      · apply List.map_congr_left
        intro k _
        simp only [Function.comp_apply]
        push_cast
        ring
    · have hlt : endT - cursor < step := by omega
      have hz : (endT - cursor) / step = 0 :=
        Int.ediv_eq_zero_of_lt (by omega) hlt
      simp only [gridLoop, if_pos hc, hz,
        gridLoop_stop endT step (cursor + step) (by omega) n]
      simp [List.range_succ]

theorem gridLoop_diverge (endT step : Int) (hs : step ≤ 0) :
    ∀ (fuel : Nat) (cursor : Int), cursor ≤ endT →
      (gridLoop endT step cursor fuel).length = fuel := by
  intro fuel
  induction fuel with
  | zero => intro cursor _; simp [gridLoop]
  | succ n ih =>
    intro cursor hc
    simp only [gridLoop, if_pos hc, List.length_cons]
    rw [ih (cursor + step) (by omega)]

/-- C4: for end strictly after start and interval ≥ 1 minute, `minute_grid`
succeeds and returns the arithmetic progression `start, start + step, …`
whose first element is `start`, every element is ≤ `end`, whose length is
`⌊(end - start) / step⌋ + 1`, and where `end` minus the last element is
strictly less than one interval. -/
theorem minute_grid_correct (startT endT step : Int)
    (hlt : startT < endT) (hs : 1 ≤ step) :
    minute_grid startT endT step = Except.ok (minuteGridList startT endT step)
    ∧ minuteGridList startT endT step
        = (List.range (((endT - startT) / step).toNat + 1)).map
            (fun k : Nat => startT + (k : Int) * step)
    ∧ (minuteGridList startT endT step).head? = some startT
    ∧ (minuteGridList startT endT step).length
        = ((endT - startT) / step).toNat + 1
    ∧ (∀ x ∈ minuteGridList startT endT step, x ≤ endT)
    ∧ (∀ x, (minuteGridList startT endT step).getLast? = some x →
        endT - x < step) := by
  have hstep : (0 : Int) < step := by omega
  have hc : startT ≤ endT := le_of_lt hlt
  have hML : minuteGridList startT endT step
      = (List.range (((endT - startT) / step).toNat + 1)).map
          (fun k : Nat => startT + (k : Int) * step) :=
    gridLoop_closed endT step hs (((endT - startT) / step).toNat + 1) startT hc
      (le_refl _)
  have hqnn : (0 : Int) ≤ (endT - startT) / step :=
    Int.ediv_nonneg (by omega) (le_of_lt hstep)
  have hcast : (((endT - startT) / step).toNat : Int) = (endT - startT) / step := by
    omega
  refine ⟨by simp [minute_grid, not_le.mpr hlt], hML, ?_, ?_, ?_, ?_⟩
  · rw [hML, List.range_succ_eq_map]
    simp
  · rw [hML]; simp
  · intro x hx
    rw [hML] at hx
    simp only [List.mem_map, List.mem_range] at hx
    obtain ⟨k, hk, rfl⟩ := hx
    have hkle : (k : Int) ≤ (endT - startT) / step := by omega
    have h1 : (k : Int) * step ≤ ((endT - startT) / step) * step :=
      mul_le_mul_of_nonneg_right hkle (le_of_lt hstep)
    have h2 : step * ((endT - startT) / step) + (endT - startT) % step
        = endT - startT := Int.ediv_add_emod _ _
    have h3 : (0 : Int) ≤ (endT - startT) % step :=
      Int.emod_nonneg _ (by omega)
    nlinarith [h1, h2, h3]
  · intro x hx
    rw [hML, List.range_succ, List.map_append, List.map_singleton] at hx
    rw [List.getLast?_concat] at hx
    have hxe : x = startT + (((endT - startT) / step).toNat : Int) * step := by
      simpa using hx.symm
    subst hxe
    rw [hcast]
    have h4 := Int.lt_ediv_add_one_mul_self (endT - startT) hstep
    nlinarith [h4]

theorem minute_grid_correct_witness :
    (0 : Int) < 10 ∧ (minuteGridList 0 10 3).head? = some 0 :=
  ⟨by decide, (minute_grid_correct 0 10 3 (by decide) (by decide)).2.2.1⟩

/-- C9: the `while` loop of `minute_grid` performs no validation of the
interval.  With interval ≥ 1 it terminates: enough fuel reaches the stable
complete grid.  For every interval ≤ 0 (given start ≤ end) the cursor
never advances past `end`, so the loop consumes any amount of fuel without
finishing: it never terminates. -/
theorem minute_grid_termination (startT endT step : Int) :
    (1 ≤ step → startT ≤ endT →
      ∀ fuel, ((endT - startT) / step).toNat + 1 ≤ fuel →
        gridLoop endT step startT fuel = minuteGridList startT endT step)
    ∧ (step ≤ 0 → startT ≤ endT →
      ∀ fuel, (gridLoop endT step startT fuel).length = fuel) := by
  constructor
  · intro hs hc fuel hf
    rw [gridLoop_closed endT step hs fuel startT hc hf]
    rw [minuteGridList, gridLoop_closed endT step hs _ startT hc (le_refl _)]
  · intro hs hc fuel
    exact gridLoop_diverge endT step hs fuel startT hc

theorem minute_grid_termination_witness :
    gridLoop 5 1 0 9 = minuteGridList 0 5 1
    ∧ (gridLoop 5 0 0 4).length = 4 :=
  ⟨(minute_grid_termination 0 5 1).1 (by decide) (by decide) 9 (by decide),
   (minute_grid_termination 0 5 0).2 (by decide) (by decide) 4⟩

/-- The two traffic models used by the core ("best_guess" exists in the
routing API but is unused). -/
inductive TrafficModel where
  | optimistic
  | pessimistic
deriving DecidableEq, Repr

/-- One unit of batch work: a (departure instant, traffic model) pair.
Origin and destination are fixed for a whole invocation and carry no
information for the engine, so they are dropped from the embedding. -/
structure FetchTask where
  instant : Int
  model : TrafficModel
deriving DecidableEq, Repr

/-- The `results` dict of `eta_series` (server.py line 223) / `run_cli`
(driveplot_fast.py line 107): `results[dt][traffic_model] = duration_min`.
`keys` is the dict's key list (insertion order, no duplicates); `cell`
returns the recorded duration of a (instant, model) pair, if any. -/
structure RTable where
  keys : List Int
  cell : Int → TrafficModel → Option ℚ

def emptyRTable : RTable := ⟨[], fun _ _ => none⟩

/-- Merging one completed fetch into the table (loop body at server.py
lines 240-247): `if dt not in results: results[dt] = {}` always runs, then
the duration is stored only on success. -/
def recordOutcome (tbl : RTable) (t : FetchTask) (res : Option ℚ) : RTable :=
  let keys := if t.instant ∈ tbl.keys then tbl.keys else tbl.keys ++ [t.instant]
  match res with
  | some v =>
    ⟨keys, fun i m => if i = t.instant ∧ m = t.model then some v else tbl.cell i m⟩
  | none => ⟨keys, tbl.cell⟩

/-- Processing one completed future: merge its outcome, and requeue the
task into `new_failed_tasks` when the fetch returned no duration. -/
def roundStep (fetch : FetchTask → Option ℚ) (acc : RTable × List FetchTask)
    (t : FetchTask) : RTable × List FetchTask :=
  let res := fetch t
  (recordOutcome acc.1 t res, if res.isSome then acc.2 else acc.2 ++ [t])

/-- One retry round (server.py lines 233-249): every task of the current
failed set is attempted once via `fetch` (which stands for
`fetch_single_eta_parallel`, local per-task retries included) and the
completions are merged; `new_failed_tasks` collects the tasks that still
failed.  The thread pool is serialised to task order — the resulting table
and failed set do not depend on completion order. -/
def runRound (fetch : FetchTask → Option ℚ) (tbl : RTable)
    (tasks : List FetchTask) : RTable × List FetchTask :=
  tasks.foldl (roundStep fetch) (tbl, [])

/-- State of the retry loop (server.py lines 229-249) after `k` iterations:
round `k + 1` runs on the tasks still failed after round `k`, and the loop
body is skipped once the failed set is empty.  `fetch r` is the per-round
outcome function of round `r` (rounds are numbered from 1, matching
`retry_round` after its increment). -/
def engineState (fetch : Nat → FetchTask → Option ℚ) (tasks : List FetchTask) :
    Nat → RTable × List FetchTask
  | 0 => (emptyRTable, tasks)
  | k + 1 =>
    let s := engineState fetch tasks k
    if s.2.isEmpty then s else runRound (fetch (k + 1)) s.1 s.2

/-- `max_retry_rounds = 3` (server.py line 226). -/
def max_retry_rounds : Nat := 3

/-- The complete engine: the while-loop runs until the failed set is empty
or `max_retry_rounds` rounds have elapsed; it leaves the results table and
the final `failed_tasks` list (whose length is the failure count reported
at driveplot_fast.py lines 154-156). -/
def runEngine (fetch : Nat → FetchTask → Option ℚ) (tasks : List FetchTask) :
    RTable × List FetchTask :=
  engineState fetch tasks max_retry_rounds

/-- Task-set construction (server.py lines 218-221): two tasks per grid
instant, optimistic first. -/
def mkTasks (grid : List Int) : List FetchTask :=
  grid.flatMap fun i => [⟨i, .optimistic⟩, ⟨i, .pessimistic⟩]

/-- Outcome of the earliest round ≤ `k` in which `t`'s fetch succeeded,
given that `t` is attempted in a round exactly when all earlier rounds
failed. -/
def firstSuccess (fetch : Nat → FetchTask → Option ℚ) (t : FetchTask) :
    Nat → Option ℚ
  | 0 => none
  | k + 1 =>
    match firstSuccess fetch t k with
    | some v => some v
    | none => fetch (k + 1) t

/-- `t` failed in every round `1, …, k`. -/
def neverSucceeded (fetch : Nat → FetchTask → Option ℚ) (k : Nat)
    (t : FetchTask) : Bool :=
  (List.range k).all fun r => (fetch (r + 1) t).isNone

theorem recordOutcome_cell (tbl : RTable) (t : FetchTask) (res : Option ℚ)
    (i : Int) (m : TrafficModel) :
    (recordOutcome tbl t res).cell i m
      = if (i = t.instant ∧ m = t.model) ∧ res.isSome then res
        else tbl.cell i m := by
  cases res with
  | none => simp [recordOutcome]
  | some v =>
    simp only [recordOutcome, Option.isSome_some, and_true]

theorem roundFold_failed (fetch : FetchTask → Option ℚ) :
    ∀ (tasks : List FetchTask) (tbl : RTable) (acc : List FetchTask),
      (tasks.foldl (roundStep fetch) (tbl, acc)).2
        = acc ++ tasks.filter (fun t => (fetch t).isNone) := by
  intro tasks
  induction tasks with
  | nil => intro tbl acc; simp
  | cons t ts ih =>
    intro tbl acc
    simp only [List.foldl_cons, roundStep]
    cases hres : fetch t with
    | none => simp [hres, ih, List.filter_cons]
    | some v => simp [hres, ih, List.filter_cons]

theorem roundFold_cell (fetch : FetchTask → Option ℚ) :
    ∀ (tasks : List FetchTask) (tbl : RTable) (acc : List FetchTask)
      (i : Int) (m : TrafficModel),
      (tasks.foldl (roundStep fetch) (tbl, acc)).1.cell i m
        = if (⟨i, m⟩ : FetchTask) ∈ tasks ∧ (fetch ⟨i, m⟩).isSome
          then fetch ⟨i, m⟩ else tbl.cell i m := by
  intro tasks
  induction tasks with
  | nil => intro tbl acc i m; simp
  | cons t ts ih =>
    intro tbl acc i m
    obtain ⟨ti, tm⟩ := t
    simp only [List.foldl_cons, roundStep]
    rw [ih, recordOutcome_cell]
    by_cases hts : (⟨i, m⟩ : FetchTask) ∈ ts ∧ (fetch ⟨i, m⟩).isSome
    · rw [if_pos hts, if_pos ⟨List.mem_cons_of_mem _ hts.1, hts.2⟩]
    · rw [if_neg hts]
      by_cases heq : ti = i ∧ tm = m
      · obtain ⟨rfl, rfl⟩ := heq
        by_cases hsome : (fetch (⟨ti, tm⟩ : FetchTask)).isSome
        · rw [if_pos ⟨⟨rfl, rfl⟩, hsome⟩, if_pos ⟨List.mem_cons_self _ _, hsome⟩]
        · rw [if_neg (fun hcon => hsome hcon.2),
            if_neg (fun hcon => hsome hcon.2)]
      · have h1 : ¬ ((i = (⟨ti, tm⟩ : FetchTask).instant
            ∧ m = (⟨ti, tm⟩ : FetchTask).model)
            ∧ (fetch (⟨ti, tm⟩ : FetchTask)).isSome) := by
          rintro ⟨⟨rfl, rfl⟩, -⟩
          exact heq ⟨rfl, rfl⟩
        have h2 : ¬ ((⟨i, m⟩ : FetchTask) ∈ (⟨ti, tm⟩ : FetchTask) :: ts
            ∧ (fetch (⟨i, m⟩ : FetchTask)).isSome) := by
          intro hcon
          rcases List.mem_cons.mp hcon.1 with h | h
          · injection h with hi hm
            exact heq ⟨hi.symm, hm.symm⟩
          · exact hts ⟨h, hcon.2⟩
        rw [if_neg h1, if_neg h2]

theorem runRound_failed (fetch : FetchTask → Option ℚ) (tbl : RTable)
    (tasks : List FetchTask) :
    (runRound fetch tbl tasks).2 = tasks.filter (fun t => (fetch t).isNone) := by
  rw [runRound, roundFold_failed]
  simp

theorem runRound_cell (fetch : FetchTask → Option ℚ) (tbl : RTable)
    (tasks : List FetchTask) (i : Int) (m : TrafficModel) :
    (runRound fetch tbl tasks).1.cell i m
      = if (⟨i, m⟩ : FetchTask) ∈ tasks ∧ (fetch ⟨i, m⟩).isSome
        then fetch ⟨i, m⟩ else tbl.cell i m :=
  roundFold_cell fetch tasks tbl [] i m

theorem firstSuccess_eq_none_iff (fetch : Nat → FetchTask → Option ℚ)
    (t : FetchTask) : ∀ k, firstSuccess fetch t k = none ↔
      neverSucceeded fetch k t = true := by
  intro k
  induction k with
  | zero => simp [firstSuccess, neverSucceeded]
  | succ n ih =>
    rw [neverSucceeded, List.range_succ, List.all_append]
    cases hfs : firstSuccess fetch t n with
    | some v =>
      simp only [firstSuccess, hfs]
      have hnt : neverSucceeded fetch n t ≠ true := by
        intro hcon
        have hx := ih.mpr hcon
        rw [hfs] at hx
        exact Option.some_ne_none v hx
      simp only [neverSucceeded] at hnt
      simp [hnt]
    | none =>
      simp only [firstSuccess, hfs]
      have hns : neverSucceeded fetch n t = true := ih.mp hfs
      simp only [neverSucceeded] at hns
      simp [hns, Option.isNone_iff_eq_none]

theorem firstSuccess_succ_of_some (fetch : Nat → FetchTask → Option ℚ)
    (t : FetchTask) (k : Nat) (v : ℚ) (h : firstSuccess fetch t k = some v) :
    firstSuccess fetch t (k + 1) = some v := by
  simp [firstSuccess, h]

theorem firstSuccess_mono (fetch : Nat → FetchTask → Option ℚ) (t : FetchTask)
    (v : ℚ) : ∀ k k', k ≤ k' → firstSuccess fetch t k = some v →
      firstSuccess fetch t k' = some v := by
  intro k k'
  induction k' with
  | zero =>
    intro hle h
    interval_cases k
    simp [firstSuccess] at h
  | succ n ih =>
    intro hle h
    rcases Nat.lt_or_ge k (n + 1) with hlt | hge
    · exact firstSuccess_succ_of_some fetch t n v (ih (by omega) h)
    · have : k = n + 1 := by omega
      subst this
      exact h

theorem engineState_failed (fetch : Nat → FetchTask → Option ℚ)
    (tasks : List FetchTask) : ∀ k,
      (engineState fetch tasks k).2 = tasks.filter (neverSucceeded fetch k) := by
  intro k
  induction k with
  | zero =>
    simp only [engineState]
    have h : ∀ t ∈ tasks, neverSucceeded fetch 0 t = true := by
      intro t _
      simp [neverSucceeded]
    exact (List.filter_eq_self.mpr h).symm
  | succ n ih =>
    have hstep : tasks.filter (neverSucceeded fetch (n + 1))
        = (tasks.filter (neverSucceeded fetch n)).filter
            (fun t => (fetch (n + 1) t).isNone) := by
      rw [List.filter_filter]
      apply List.filter_congr
      intro t _
      simp only [neverSucceeded, List.range_succ, List.all_append,
        List.all_cons, List.all_nil, Bool.and_true]
      rw [Bool.and_comm]
    simp only [engineState]
    by_cases hemp : (engineState fetch tasks n).2.isEmpty
    · rw [if_pos hemp]
      rw [ih] at hemp ⊢
      rw [hstep, List.isEmpty_iff.mp hemp]
      simp
    · rw [if_neg hemp, runRound_failed, ih, hstep]

theorem engineState_cell (fetch : Nat → FetchTask → Option ℚ)
    (tasks : List FetchTask) : ∀ (k : Nat) (i : Int) (m : TrafficModel),
      (engineState fetch tasks k).1.cell i m
        = if (⟨i, m⟩ : FetchTask) ∈ tasks then firstSuccess fetch ⟨i, m⟩ k
          else none := by
  intro k
  induction k with
  | zero =>
    intro i m
    simp [engineState, emptyRTable, firstSuccess]
  | succ n ih =>
    intro i m
    simp only [engineState]
    by_cases hemp : (engineState fetch tasks n).2.isEmpty
    · rw [if_pos hemp, ih]
      by_cases hmem : (⟨i, m⟩ : FetchTask) ∈ tasks
      · rw [if_pos hmem, if_pos hmem]
        rw [engineState_failed] at hemp
        cases hfs : firstSuccess fetch (⟨i, m⟩ : FetchTask) n with
        | some v => exact (firstSuccess_succ_of_some fetch _ n v hfs).symm
        | none =>
          exfalso
          have hns := (firstSuccess_eq_none_iff fetch _ n).mp hfs
          have : (⟨i, m⟩ : FetchTask) ∈ tasks.filter (neverSucceeded fetch n) :=
            List.mem_filter.mpr ⟨hmem, hns⟩
          rw [List.isEmpty_iff.mp hemp] at this
          exact absurd this (List.not_mem_nil _)
      · rw [if_neg hmem, if_neg hmem]
    · rw [if_neg hemp, runRound_cell, ih, engineState_failed]
      by_cases hmem : (⟨i, m⟩ : FetchTask) ∈ tasks
      · cases hfs : firstSuccess fetch (⟨i, m⟩ : FetchTask) n with
        | some v =>
          have hnot : (⟨i, m⟩ : FetchTask) ∉
              tasks.filter (neverSucceeded fetch n) := by
            intro hcon
            have hx := (List.mem_filter.mp hcon).2
            rw [← firstSuccess_eq_none_iff] at hx
            rw [hfs] at hx
            exact Option.some_ne_none v hx
          simp [hmem, hnot, hfs, firstSuccess_succ_of_some fetch _ n v hfs]
        | none =>
          have hmemf : (⟨i, m⟩ : FetchTask) ∈
              tasks.filter (neverSucceeded fetch n) :=
            List.mem_filter.mpr
              ⟨hmem, (firstSuccess_eq_none_iff fetch _ n).mp hfs⟩
          by_cases hsome : (fetch (n + 1) (⟨i, m⟩ : FetchTask)).isSome
          · simp [hmem, hmemf, hsome, firstSuccess, hfs]
          · have hnone : fetch (n + 1) (⟨i, m⟩ : FetchTask) = none :=
              Option.not_isSome_iff_eq_none.mp hsome
            simp [hmem, hsome, firstSuccess, hfs, hnone]
      · have hnf : (⟨i, m⟩ : FetchTask) ∉
            tasks.filter (neverSucceeded fetch n) := by
          intro hcon
          exact hmem (List.mem_filter.mp hcon).1
        simp [hmem, hnf]

theorem mem_mkTasks (grid : List Int) (t : FetchTask) :
    t ∈ mkTasks grid ↔ t.instant ∈ grid := by
  simp only [mkTasks, List.mem_flatMap]
  constructor
  · rintro ⟨i, hi, hmem⟩
    rcases List.mem_cons.mp hmem with rfl | hmem
    · exact hi
    · rcases List.mem_cons.mp hmem with rfl | hmem
      · exact hi
      · exact absurd hmem (List.not_mem_nil t)
  · intro hi
    refine ⟨t.instant, hi, ?_⟩
    cases t with
    | mk ti tm => cases tm <;> simp

theorem mkTasks_length (grid : List Int) :
    (mkTasks grid).length = 2 * grid.length := by
  induction grid with
  | nil => simp [mkTasks]
  | cons a l ih =>
    simp only [mkTasks, List.flatMap_cons] at ih ⊢
    simp only [List.length_append, List.length_cons, List.length_nil, ih]
    omega

theorem mkTasks_cons (a : Int) (l : List Int) :
    mkTasks (a :: l)
      = (⟨a, .optimistic⟩ : FetchTask) :: ⟨a, .pessimistic⟩ :: mkTasks l := by
  simp [mkTasks]

theorem mkTasks_count (grid : List Int) (hnd : grid.Nodup) (i : Int)
    (m : TrafficModel) :
    (mkTasks grid).count ⟨i, m⟩ = if i ∈ grid then 1 else 0 := by
  induction grid with
  | nil => simp [mkTasks]
  | cons a l ih =>
    rw [List.nodup_cons] at hnd
    rw [mkTasks_cons, List.count_cons, List.count_cons, ih hnd.2]
    by_cases hia : i = a
    · subst hia
      rw [if_neg hnd.1, if_pos (List.mem_cons_self _ _)]
      cases m <;> simp
    · have hne1 : ((⟨a, TrafficModel.pessimistic⟩ : FetchTask)
          == (⟨i, m⟩ : FetchTask)) = false := by
        rw [beq_eq_false_iff_ne]
        intro h
        injection h with h1 _
        exact hia h1.symm
      have hne2 : ((⟨a, TrafficModel.optimistic⟩ : FetchTask)
          == (⟨i, m⟩ : FetchTask)) = false := by
        rw [beq_eq_false_iff_ne]
        intro h
        injection h with h1 _
        exact hia h1.symm
      rw [hne1, hne2]
      simp [List.mem_cons, hia]

theorem firstSuccess_of_no_failures (fetch : Nat → FetchTask → Option ℚ)
    (f : FetchTask → ℚ) (hf : ∀ r t, fetch r t = some (f t)) (t : FetchTask) :
    ∀ k, 1 ≤ k → firstSuccess fetch t k = some (f t) := by
  intro k
  induction k with
  | zero => omega
  | succ n ih =>
    intro _
    rcases Nat.eq_zero_or_pos n with rfl | hpos
    · simp [firstSuccess, hf 1 t]
    · exact firstSuccess_succ_of_some fetch t n (f t) (ih hpos)

/-- C1: over any duplicate-free grid, the task set has size `2 × |grid|`
and contains each (instant, model) pair exactly once; run with a fetch that
never fails, the engine records exactly one duration per (instant, model)
pair of the grid — no duplicates (the cell holds the unique fetched value),
no omissions, and nothing for instants outside the grid.  Moreover a cell,
once recorded, is never overwritten or removed in any later round, and with
no failures every retry-round task set is empty: already-succeeded tasks
are never reattempted. -/
theorem engine_complete_on_success (grid : List Int)
    (fetch : Nat → FetchTask → Option ℚ) (f : FetchTask → ℚ)
    (hnd : grid.Nodup) (hf : ∀ r t, fetch r t = some (f t)) :
    (mkTasks grid).length = 2 * grid.length
    ∧ (∀ i m, (mkTasks grid).count ⟨i, m⟩ = if i ∈ grid then 1 else 0)
    ∧ (∀ i m, i ∈ grid →
        (runEngine fetch (mkTasks grid)).1.cell i m = some (f ⟨i, m⟩))
    ∧ (∀ i m, i ∉ grid → (runEngine fetch (mkTasks grid)).1.cell i m = none)
    ∧ (∀ k k' i m v, k ≤ k' →
        (engineState fetch (mkTasks grid) k).1.cell i m = some v →
        (engineState fetch (mkTasks grid) k').1.cell i m = some v)
    ∧ (∀ k, 1 ≤ k → (engineState fetch (mkTasks grid) k).2 = []) := by
  refine ⟨mkTasks_length grid, fun i m => mkTasks_count grid hnd i m,
    ?_, ?_, ?_, ?_⟩
  · intro i m hi
    rw [runEngine, engineState_cell]
    rw [if_pos ((mem_mkTasks grid ⟨i, m⟩).mpr hi)]
    exact firstSuccess_of_no_failures fetch f hf _ max_retry_rounds
      (by simp [max_retry_rounds])
  · intro i m hi
    rw [runEngine, engineState_cell]
    rw [if_neg (fun hcon => hi ((mem_mkTasks grid ⟨i, m⟩).mp hcon))]
  · intro k k' i m v hkk hcell
    rw [engineState_cell] at hcell ⊢
    by_cases hmem : (⟨i, m⟩ : FetchTask) ∈ mkTasks grid
    · rw [if_pos hmem] at hcell ⊢
      exact firstSuccess_mono fetch _ v k k' hkk hcell
    · rw [if_neg hmem] at hcell
      exact absurd hcell (Option.noConfusion)
  · intro k hk
    rw [engineState_failed]
    apply List.filter_eq_nil_iff.mpr
    intro t _
    simp only [neverSucceeded, List.all_eq_true]
    intro hall
    have h0 : 0 ∈ List.range k := List.mem_range.mpr (by omega)
    have := hall 0 h0
    rw [hf 1 t] at this
    simp at this

theorem engine_complete_on_success_witness :
    ([0, 15] : List Int).Nodup
    ∧ (runEngine (fun _ _ => some 10) (mkTasks [0, 15])).1.cell 0
        TrafficModel.optimistic = some 10 :=
  ⟨by decide,
   (engine_complete_on_success [0, 15] (fun _ _ => some 10)
      (fun _ => 10) (by decide) (fun _ _ => rfl)).2.2.1 0
      TrafficModel.optimistic (by decide)⟩

/-- C2: a task that fails in every one of the three rounds ends with no
recorded cell in the results table and is a member of the final
`failed_tasks` list; that final list is exactly the never-satisfied tasks
of the task set, so its length — the count the CLI reports to the caller
as a warning (driveplot_fast.py lines 154-156) — is the number of tasks
that were never satisfied. -/
theorem engine_drops_and_reports (grid : List Int)
    (fetch : Nat → FetchTask → Option ℚ) (t : FetchTask)
    (ht : t ∈ mkTasks grid)
    (h1 : fetch 1 t = none) (h2 : fetch 2 t = none) (h3 : fetch 3 t = none) :
    (runEngine fetch (mkTasks grid)).1.cell t.instant t.model = none
    ∧ t ∈ (runEngine fetch (mkTasks grid)).2
    ∧ (runEngine fetch (mkTasks grid)).2
        = (mkTasks grid).filter (neverSucceeded fetch max_retry_rounds) := by
  have hnev : neverSucceeded fetch max_retry_rounds t = true := by
    simp only [neverSucceeded, max_retry_rounds, List.all_eq_true]
    intro r hr
    rw [List.mem_range] at hr
    interval_cases r <;> simp [h1, h2, h3]
  refine ⟨?_, ?_, ?_⟩
  · rw [runEngine, engineState_cell]
    have hteta : (⟨t.instant, t.model⟩ : FetchTask) = t := rfl
    rw [hteta, if_pos ht]
    rw [firstSuccess_eq_none_iff]
    exact hnev
  · rw [runEngine, engineState_failed]
    exact List.mem_filter.mpr ⟨ht, hnev⟩
  · rw [runEngine, engineState_failed]

theorem engine_drops_and_reports_witness :
    (⟨0, TrafficModel.pessimistic⟩ : FetchTask) ∈ mkTasks [0]
    ∧ (runEngine
        (fun _ t => if t.model = TrafficModel.optimistic then some 5 else none)
        (mkTasks [0])).1.cell 0 TrafficModel.pessimistic = none :=
  ⟨by decide,
   (engine_drops_and_reports [0]
      (fun _ t => if t.model = TrafficModel.optimistic then some 5 else none)
      ⟨0, TrafficModel.pessimistic⟩ (by decide) rfl rfl rfl).1⟩

/-- Python `round()` to an integer: nearest integer, ties to even.  The
source stores one-decimal durations via `round(x, 1)`, modelled exactly on
`ℚ` (the spec directs pinning one rounding rule; Python documents
half-to-even). -/
def roundHalfEven (q : ℚ) : Int :=
  let f : Int := q.num / (q.den : Int)
  let frac : ℚ := q - (f : ℚ)
  if frac < 1 / 2 then f
  else if 1 / 2 < frac then f + 1
  else if f % 2 = 0 then f else f + 1

/-- Python `round(x, 1)`. -/
def round1 (q : ℚ) : ℚ := (roundHalfEven (q * 10) : ℚ) / 10

/-- One entry of the `rows` list (server.py lines 264-271). -/
structure Row where
  departure : Int
  optimistic_min : ℚ
  pessimistic_min : ℚ
  average_min : ℚ
deriving DecidableEq, Repr

/-- Python `sorted(results.keys())` (server.py line 257). -/
def sortKeys (l : List Int) : List Int := l.insertionSort (· ≤ ·)

/-- The per-instant body of the assembly loop (server.py lines 258-274):
a row is produced only when both models succeeded. -/
def rowOfInstant (tbl : RTable) (i : Int) : Option Row :=
  match tbl.cell i TrafficModel.optimistic, tbl.cell i TrafficModel.pessimistic with
  | some o, some p => some ⟨i, o, p, round1 ((o + p) / 2)⟩
  | _, _ => none

/-- Instants with both traffic models recorded. -/
def bothPresent (tbl : RTable) (i : Int) : Bool :=
  (tbl.cell i TrafficModel.optimistic).isSome
    && (tbl.cell i TrafficModel.pessimistic).isSome

/-- The filtered, time-ordered `rows` / `times` / `opt_min` / `pes_min`
data of the assembly step (server.py lines 251-274, driveplot_fast.py
lines 158-171), as a list of rows. -/
def buildRows (tbl : RTable) : List Row :=
  (sortKeys tbl.keys).filterMap (rowOfInstant tbl)

/-- Python `min(list)` — the fold the builtin performs on a nonempty list
(the empty case raises ValueError at the call sites modelled below). -/
def listMinQ : List ℚ → ℚ
  | [] => 0
  | x :: xs => xs.foldl min x

def listMaxQ : List ℚ → ℚ
  | [] => 0
  | x :: xs => xs.foldl max x

/-- Python `avg_min.index(min(avg_min))` (server.py line 278): the first
index holding the minimum. -/
def idxOfMinQ (l : List ℚ) : Nat := l.findIdx fun x => decide (x = listMinQ l)

/-- Python `avg_min.index(max(avg_min))` (server.py line 279). -/
def idxOfMaxQ (l : List ℚ) : Nat := l.findIdx fun x => decide (x = listMaxQ l)

/-- The `best_time` / `worst_time` payload (server.py lines 284-295). -/
structure TimePoint where
  departure : Int
  average_min : ℚ
  optimistic_min : ℚ
  pessimistic_min : ℚ
deriving DecidableEq, Repr

/-- The `insights` dict (server.py lines 283-297). -/
structure Insights where
  best_time : TimePoint
  worst_time : TimePoint
  time_difference_min : ℚ
deriving DecidableEq, Repr

def defaultRow : Row := ⟨0, 0, 0, 0⟩

/-- `avg_min = [(o + p) / 2 for o, p in zip(opt_min, pes_min)]`
(server.py line 277), on the parallel lists projected from the rows. -/
def avgListOf (rows : List Row) : List ℚ :=
  List.zipWith (fun o p => (o + p) / 2)
    (rows.map Row.optimistic_min) (rows.map Row.pessimistic_min)

/-- The insights computation of server.py lines 277-297: indices of the
extreme unrounded averages, fields rounded to one decimal on output, and
`time_difference_min = round(avg_min[max_idx] - avg_min[min_idx], 1)`. -/
def insightsOf (rows : List Row) : Insights :=
  let avg := avgListOf rows
  let mi := idxOfMinQ avg
  let ma := idxOfMaxQ avg
  let bestRow := rows.getD mi defaultRow
  let worstRow := rows.getD ma defaultRow
  { best_time := ⟨bestRow.departure, round1 (avg.getD mi 0),
      bestRow.optimistic_min, bestRow.pessimistic_min⟩
    worst_time := ⟨worstRow.departure, round1 (avg.getD ma 0),
      worstRow.optimistic_min, worstRow.pessimistic_min⟩
    time_difference_min := round1 (avg.getD ma 0 - avg.getD mi 0) }

/-- Python exceptions that can escape the modelled functions. -/
inductive PyException where
  | valueErrorEmptySeq
  | zeroDivisionError
deriving DecidableEq, Repr

/-- The character grid of the text plot: row index (0 at the top, `Int`
because `height - 1 - scale(val)` is computed in arbitrary-precision
integer arithmetic), column index. -/
abbrev PlotGrid := Int → Nat → Char

/-- Python `int()` truncation toward zero on a rational. -/
def pyInt (q : ℚ) : Int := q.num.tdiv (q.den : Int)

/-- `height = 20` (server.py line 114). -/
def plotHeight : Nat := 20

/-- `scale(val) = int((val - min_val) / (max_val - min_val) * (height - 1))`
(server.py lines 117-118). -/
def scaleVal (minv maxv v : ℚ) : Int :=
  pyInt ((v - minv) / (maxv - minv) * ((plotHeight - 1 : Nat) : ℚ))

/-- The row of a value: `height - 1 - scale(val)` (server.py lines
125-127). -/
def rowY (minv maxv v : ℚ) : Int :=
  ((plotHeight : Nat) : Int) - 1 - scaleVal minv maxv v

def blankGrid : PlotGrid := fun _ _ => ' '

def gridSet (g : PlotGrid) (r : Int) (c : Nat) (ch : Char) : PlotGrid :=
  fun r' c' => if r' = r ∧ c' = c then ch else g r' c'

/-- `if grid[y][i] == ' ': grid[y][i] = ch` (server.py lines 129-132). -/
def writeIfBlank (g : PlotGrid) (rY : Int) (i : Nat) (ch : Char) : PlotGrid :=
  if g rY i = ' ' then gridSet g rY i ch else g

/-- The average-marker write (server.py lines 133-136): `*` on a blank
cell, and `*` overriding a coincident `+` or `o`. -/
def writeAvg (g : PlotGrid) (rY : Int) (i : Nat) : PlotGrid :=
  if g rY i = ' ' then gridSet g rY i '*'
  else if g rY i = '+' ∨ g rY i = 'o' then gridSet g rY i '*'
  else g

/-- The per-column marker writes of server.py lines 129-136, in source
order: pessimistic `o` if the cell is blank, optimistic `+` if its cell is
blank, then the average write. -/
def paintCol (g : PlotGrid) (i : Nat) (optY pesY avgY : Int) : PlotGrid :=
  writeAvg (writeIfBlank (writeIfBlank g pesY i 'o') optY i '+') avgY i

/-- The full marker grid of the text plot (server.py lines 121-142): all
columns painted in order, then `grid[min_y][min_idx] = 'B'` and
`grid[max_y][max_idx] = 'W'` applied last, in that order. -/
def plotGridOf (opt pes avg : List ℚ) (minIdx maxIdx : Nat)
    (minv maxv : ℚ) : PlotGrid :=
  let base := (List.range opt.length).foldl
    (fun g i => paintCol g i (rowY minv maxv (opt.getD i 0))
      (rowY minv maxv (pes.getD i 0)) (rowY minv maxv (avg.getD i 0)))
    blankGrid
  let g1 := gridSet base (rowY minv maxv (avg.getD minIdx 0)) minIdx 'B'
  gridSet g1 (rowY minv maxv (avg.getD maxIdx 0)) maxIdx 'W'

/-- Model of `generate_simple_text_plot` (server.py lines 108-142) /
`print_simple_text_plot` (driveplot_fast.py lines 258-292), restricted to
the marker grid (the claims do not touch the axis labels or the legend).
`min()`/`max()` on an empty series raise ValueError; a flat series makes
`scale` divide by `max_val - min_val = 0` on the first column, raising
ZeroDivisionError. -/
def generate_simple_text_plot (opt pes avg : List ℚ) (minIdx maxIdx : Nat) :
    Except PyException PlotGrid :=
  match opt, pes with
  | [], _ => Except.error PyException.valueErrorEmptySeq
  | _, [] => Except.error PyException.valueErrorEmptySeq
  | _ :: _, _ :: _ =>
    let minv := min (listMinQ opt) (listMinQ pes)
    let maxv := max (listMaxQ opt) (listMaxQ pes)
    if maxv = minv then Except.error PyException.zeroDivisionError
    else Except.ok (plotGridOf opt pes avg minIdx maxIdx minv maxv)

/-- The value the `eta_series` tool returns on success (series rows,
insights, text plot grid). -/
structure EtaResult where
  series : List Row
  insights : Insights
  text_plot : PlotGrid

/-- The assembly tail of `eta_series` (server.py lines 251-299) on an
already-fetched results table: build the filtered rows, then
`min(avg_min)` — which raises ValueError on an empty sequence, there is no
emptiness check — then insights and the text plot; any exception of the
plot escapes, there is no handler. -/
def eta_series (tbl : RTable) : Except PyException EtaResult :=
  let rows := buildRows tbl
  let opt := rows.map Row.optimistic_min
  let pes := rows.map Row.pessimistic_min
  let avg := List.zipWith (fun o p => (o + p) / 2) opt pes
  match avg with
  | [] => Except.error PyException.valueErrorEmptySeq
  | _ :: _ =>
    match generate_simple_text_plot opt pes avg (idxOfMinQ avg) (idxOfMaxQ avg) with
    | Except.error e => Except.error e
    | Except.ok g => Except.ok ⟨rows, insightsOf rows, g⟩

/-- The whole tool pipeline: run the engine over the task set of a grid,
then assemble. -/
def eta_series_run (fetch : Nat → FetchTask → Option ℚ) (grid : List Int) :
    Except PyException EtaResult :=
  eta_series (runEngine fetch (mkTasks grid)).1

/-- Outcome of the assembly step of `run_cli` (driveplot_fast.py lines
158-178): with no complete time point it prints a "No valid data points"
error and returns exit code 1 — a reported no-data outcome, not an
exception. -/
inductive CliOutcome where
  | noData
  | ok (rows : List Row)
deriving DecidableEq, Repr

def run_cli_assemble (tbl : RTable) : CliOutcome :=
  let rows := buildRows tbl
  if rows.isEmpty then CliOutcome.noData else CliOutcome.ok rows

theorem recordOutcome_keys (tbl : RTable) (t : FetchTask) (res : Option ℚ) :
    (recordOutcome tbl t res).keys
      = if t.instant ∈ tbl.keys then tbl.keys else tbl.keys ++ [t.instant] := by
  cases res <;> rfl

theorem mem_recordOutcome_keys (tbl : RTable) (t : FetchTask) (res : Option ℚ)
    (i : Int) :
    i ∈ (recordOutcome tbl t res).keys ↔ i ∈ tbl.keys ∨ i = t.instant := by
  rw [recordOutcome_keys]
  split
  · next h =>
    constructor
    · exact Or.inl
    · rintro (h' | rfl)
      · exact h'
      · exact h
  · simp [List.mem_append]

theorem recordOutcome_keys_nodup (tbl : RTable) (t : FetchTask) (res : Option ℚ)
    (h : tbl.keys.Nodup) : (recordOutcome tbl t res).keys.Nodup := by
  rw [recordOutcome_keys]
  split
  · exact h
  · next hnot =>
    refine List.Nodup.append h (List.nodup_singleton _) ?_
    intro x hx hmem
    rw [List.mem_singleton] at hmem
    subst hmem
    exact hnot hx

theorem roundFold_keys_mem (fetch : FetchTask → Option ℚ) :
    ∀ (tasks : List FetchTask) (tbl : RTable) (acc : List FetchTask) (i : Int),
      i ∈ (tasks.foldl (roundStep fetch) (tbl, acc)).1.keys
        ↔ i ∈ tbl.keys ∨ ∃ t ∈ tasks, t.instant = i := by
  intro tasks
  induction tasks with
  | nil => intro tbl acc i; simp
  | cons t ts ih =>
    intro tbl acc i
    simp only [List.foldl_cons, roundStep]
    rw [ih, mem_recordOutcome_keys]
    simp only [List.mem_cons]
    constructor
    · rintro ((h | rfl) | ⟨t', ht', rfl⟩)
      · exact Or.inl h
      · exact Or.inr ⟨t, Or.inl rfl, rfl⟩
      · exact Or.inr ⟨t', Or.inr ht', rfl⟩
    · rintro (h | ⟨t', (rfl | ht'), rfl⟩)
      · exact Or.inl (Or.inl h)
      · exact Or.inl (Or.inr rfl)
      · exact Or.inr ⟨t', ht', rfl⟩

theorem roundFold_keys_nodup (fetch : FetchTask → Option ℚ) :
    ∀ (tasks : List FetchTask) (tbl : RTable) (acc : List FetchTask),
      tbl.keys.Nodup → (tasks.foldl (roundStep fetch) (tbl, acc)).1.keys.Nodup := by
  intro tasks
  induction tasks with
  | nil => intro tbl acc h; exact h
  | cons t ts ih =>
    intro tbl acc h
    simp only [List.foldl_cons, roundStep]
    exact ih _ _ (recordOutcome_keys_nodup tbl t (fetch t) h)

theorem roundFold_cell_keys (fetch : FetchTask → Option ℚ)
    (tasks : List FetchTask) (tbl : RTable) (acc : List FetchTask)
    (hinv : ∀ i m, (tbl.cell i m).isSome → i ∈ tbl.keys) :
    ∀ i m, ((tasks.foldl (roundStep fetch) (tbl, acc)).1.cell i m).isSome →
      i ∈ (tasks.foldl (roundStep fetch) (tbl, acc)).1.keys := by
  intro i m hsome
  rw [roundFold_cell] at hsome
  rw [roundFold_keys_mem]
  by_cases hc : (⟨i, m⟩ : FetchTask) ∈ tasks ∧ (fetch ⟨i, m⟩).isSome
  · exact Or.inr ⟨⟨i, m⟩, hc.1, rfl⟩
  · rw [if_neg hc] at hsome
    exact Or.inl (hinv i m hsome)

theorem engineState_keys_nodup (fetch : Nat → FetchTask → Option ℚ)
    (tasks : List FetchTask) :
    ∀ k, (engineState fetch tasks k).1.keys.Nodup := by
  intro k
  induction k with
  | zero => simp [engineState, emptyRTable]
  | succ n ih =>
    simp only [engineState]
    split
    · exact ih
    · rw [runRound]
      exact roundFold_keys_nodup _ _ _ _ ih

theorem engineState_cell_keys (fetch : Nat → FetchTask → Option ℚ)
    (tasks : List FetchTask) :
    ∀ k i m, ((engineState fetch tasks k).1.cell i m).isSome →
      i ∈ (engineState fetch tasks k).1.keys := by
  intro k
  induction k with
  | zero =>
    intro i m hsome
    simp [engineState, emptyRTable] at hsome
  | succ n ih =>
    intro i m
    simp only [engineState]
    split
    · exact ih i m
    · rw [runRound]
      exact roundFold_cell_keys _ _ _ _ ih i m

theorem engineState_keys_sub (fetch : Nat → FetchTask → Option ℚ)
    (tasks : List FetchTask) :
    ∀ k i, i ∈ (engineState fetch tasks k).1.keys →
      ∃ t ∈ tasks, t.instant = i := by
  intro k
  induction k with
  | zero =>
    intro i h
    simp [engineState, emptyRTable] at h
  | succ n ih =>
    intro i
    simp only [engineState]
    split
    · exact ih i
    · rw [runRound, roundFold_keys_mem]
      rintro (h | ⟨t, ht, rfl⟩)
      · exact ih i h
      · rw [engineState_failed] at ht
        exact ⟨t, (List.mem_filter.mp ht).1, rfl⟩

theorem map_departure_filterMap (tbl : RTable) :
    ∀ l : List Int, ((l.filterMap (rowOfInstant tbl)).map Row.departure)
      = l.filter (bothPresent tbl) := by
  intro l
  induction l with
  | nil => simp
  | cons i l ih =>
    rw [List.filterMap_cons, List.filter_cons]
    cases ho : tbl.cell i TrafficModel.optimistic with
    | none => simp [rowOfInstant, bothPresent, ho, ih]
    | some o =>
      cases hp : tbl.cell i TrafficModel.pessimistic with
      | none => simp [rowOfInstant, bothPresent, ho, hp, ih]
      | some p => simp [rowOfInstant, bothPresent, ho, hp, ih]

/-- C5: for the table produced by any engine run over any grid, the
assembled series consists of exactly the instants with both traffic models
present (instants with only one model are dropped silently — the rows are
a filter, not an error path), in strictly ascending instant order, and its
length never exceeds the grid's. -/
theorem series_exactly_complete_instants (grid : List Int)
    (fetch : Nat → FetchTask → Option ℚ) :
    ((buildRows (runEngine fetch (mkTasks grid)).1).map Row.departure).Sorted
        (· < ·)
    ∧ (∀ i : Int,
        i ∈ (buildRows (runEngine fetch (mkTasks grid)).1).map Row.departure
          ↔ ((runEngine fetch (mkTasks grid)).1.cell i
                TrafficModel.optimistic).isSome
            ∧ ((runEngine fetch (mkTasks grid)).1.cell i
                TrafficModel.pessimistic).isSome)
    ∧ (buildRows (runEngine fetch (mkTasks grid)).1).length ≤ grid.length := by
  have hnd : (runEngine fetch (mkTasks grid)).1.keys.Nodup :=
    engineState_keys_nodup fetch (mkTasks grid) max_retry_rounds
  have hck : ∀ i m, (((runEngine fetch (mkTasks grid)).1.cell i m)).isSome →
      i ∈ (runEngine fetch (mkTasks grid)).1.keys :=
    engineState_cell_keys fetch (mkTasks grid) max_retry_rounds
  have hsub : ∀ i ∈ (runEngine fetch (mkTasks grid)).1.keys, i ∈ grid := by
    intro i hi
    obtain ⟨t, ht, rfl⟩ :=
      engineState_keys_sub fetch (mkTasks grid) max_retry_rounds i hi
    exact (mem_mkTasks grid t).mp ht
  have hmapdep : (buildRows (runEngine fetch (mkTasks grid)).1).map
      Row.departure
      = (sortKeys (runEngine fetch (mkTasks grid)).1.keys).filter
          (bothPresent (runEngine fetch (mkTasks grid)).1) :=
    map_departure_filterMap _ _
  have hsortnd : (sortKeys (runEngine fetch (mkTasks grid)).1.keys).Nodup :=
    (List.perm_insertionSort _ _).nodup_iff.mpr hnd
  have hsorted_le : (sortKeys (runEngine fetch (mkTasks grid)).1.keys).Sorted
      (· ≤ ·) := List.sorted_insertionSort _ _
  have hsorted_lt : (sortKeys (runEngine fetch (mkTasks grid)).1.keys).Sorted
      (· < ·) := by
    have hand := List.Pairwise.and hsorted_le hsortnd
    exact hand.imp fun hab => lt_of_le_of_ne hab.1 hab.2
  refine ⟨?_, ?_, ?_⟩
  · rw [hmapdep]
    exact hsorted_lt.filter _
  · intro i
    rw [hmapdep]
    rw [List.mem_filter]
    constructor
    · intro h
      have hb := h.2
      simp only [bothPresent, Bool.and_eq_true] at hb
      exact hb
    · intro h
      refine ⟨?_, ?_⟩
      · rw [sortKeys, List.mem_insertionSort]
        exact hck i TrafficModel.optimistic h.1
      · simp only [bothPresent, Bool.and_eq_true]
        exact h
  · have hlen1 : (buildRows (runEngine fetch (mkTasks grid)).1).length
        = ((buildRows (runEngine fetch (mkTasks grid)).1).map
            Row.departure).length := (List.length_map _ _).symm
    rw [hlen1, hmapdep]
    calc ((sortKeys (runEngine fetch (mkTasks grid)).1.keys).filter
            (bothPresent (runEngine fetch (mkTasks grid)).1)).length
        ≤ (sortKeys (runEngine fetch (mkTasks grid)).1.keys).length :=
          List.length_filter_le _ _
      _ = (runEngine fetch (mkTasks grid)).1.keys.length :=
          (List.perm_insertionSort _ _).length_eq
      _ ≤ grid.length := by
          apply List.Subperm.length_le
          apply List.subperm_of_subset hnd
          intro x hx
          exact hsub x hx

/-- C3: on a table with no complete instant the assembly diverges between
the two implementations: the MCP server's `eta_series` hits
`min(avg_min)` on an empty list and a ValueError escapes (there is no
EmptySeries handling), while the CLI's `run_cli` detects the empty series
and returns the clean no-data outcome (exit code 1) the claim describes. -/
theorem empty_series_behavior (tbl : RTable) (h : buildRows tbl = []) :
    eta_series tbl = Except.error PyException.valueErrorEmptySeq
    ∧ run_cli_assemble tbl = CliOutcome.noData := by
  constructor
  · simp [eta_series, h]
  · simp [run_cli_assemble, h]

theorem empty_series_behavior_witness :
    buildRows (runEngine (fun _ _ => none) (mkTasks [0])).1 = []
    ∧ eta_series (runEngine (fun _ _ => none) (mkTasks [0])).1
        = Except.error PyException.valueErrorEmptySeq :=
  ⟨by decide,
   (empty_series_behavior (runEngine (fun _ _ => none) (mkTasks [0])).1
      (by decide)).1⟩

theorem foldl_min_le_init : ∀ (xs : List ℚ) (init : ℚ), xs.foldl min init ≤ init := by
  intro xs
  induction xs with
  | nil => intro init; exact le_refl _
  | cons x xs ih =>
    intro init
    calc xs.foldl min (min init x) ≤ min init x := ih _
      _ ≤ init := min_le_left _ _

theorem foldl_min_le_mem : ∀ (xs : List ℚ) (init x : ℚ), x ∈ xs →
    xs.foldl min init ≤ x := by
  intro xs
  induction xs with
  | nil => intro init x hx; exact absurd hx (List.not_mem_nil x)
  | cons y ys ih =>
    intro init x hx
    rcases List.mem_cons.mp hx with rfl | hx
    · calc ys.foldl min (min init x) ≤ min init x := foldl_min_le_init _ _
        _ ≤ x := min_le_right _ _
    · exact ih _ x hx

theorem foldl_min_mem : ∀ (xs : List ℚ) (init : ℚ),
    xs.foldl min init = init ∨ xs.foldl min init ∈ xs := by
  intro xs
  induction xs with
  | nil => intro init; exact Or.inl rfl
  | cons y ys ih =>
    intro init
    rcases ih (min init y) with h | h
    · rcases min_choice init y with h1 | h1
      · exact Or.inl (by rw [List.foldl_cons, h, h1])
      · exact Or.inr (by rw [List.foldl_cons, h, h1]; exact List.mem_cons_self _ _)
    · exact Or.inr (List.mem_cons_of_mem _ h)

theorem foldl_max_ge_init : ∀ (xs : List ℚ) (init : ℚ), init ≤ xs.foldl max init := by
  intro xs
  induction xs with
  | nil => intro init; exact le_refl _
  | cons x xs ih =>
    intro init
    calc init ≤ max init x := le_max_left _ _
      _ ≤ xs.foldl max (max init x) := ih _

theorem foldl_max_ge_mem : ∀ (xs : List ℚ) (init x : ℚ), x ∈ xs →
    x ≤ xs.foldl max init := by
  intro xs
  induction xs with
  | nil => intro init x hx; exact absurd hx (List.not_mem_nil x)
  | cons y ys ih =>
    intro init x hx
    rcases List.mem_cons.mp hx with rfl | hx
    · calc x ≤ max init x := le_max_right _ _
        _ ≤ ys.foldl max (max init x) := foldl_max_ge_init _ _
    · exact ih _ x hx

theorem foldl_max_mem : ∀ (xs : List ℚ) (init : ℚ),
    xs.foldl max init = init ∨ xs.foldl max init ∈ xs := by
  intro xs
  induction xs with
  | nil => intro init; exact Or.inl rfl
  | cons y ys ih =>
    intro init
    rcases ih (max init y) with h | h
    · rcases max_choice init y with h1 | h1
      · exact Or.inl (by rw [List.foldl_cons, h, h1])
      · exact Or.inr (by rw [List.foldl_cons, h, h1]; exact List.mem_cons_self _ _)
    · exact Or.inr (List.mem_cons_of_mem _ h)

theorem listMinQ_le (l : List ℚ) : ∀ x ∈ l, listMinQ l ≤ x := by
  cases l with
  | nil => intro x hx; exact absurd hx (List.not_mem_nil x)
  | cons a xs =>
    intro x hx
    rcases List.mem_cons.mp hx with rfl | hx
    · exact foldl_min_le_init xs x
    · exact foldl_min_le_mem xs a x hx

theorem listMaxQ_ge (l : List ℚ) : ∀ x ∈ l, x ≤ listMaxQ l := by
  cases l with
  | nil => intro x hx; exact absurd hx (List.not_mem_nil x)
  | cons a xs =>
    intro x hx
    rcases List.mem_cons.mp hx with rfl | hx
    · exact foldl_max_ge_init xs x
    · exact foldl_max_ge_mem xs a x hx

theorem listMinQ_mem (l : List ℚ) (h : l ≠ []) : listMinQ l ∈ l := by
  cases l with
  | nil => exact absurd rfl h
  | cons a xs =>
    rcases foldl_min_mem xs a with h1 | h1
    · rw [listMinQ, h1]; exact List.mem_cons_self _ _
    · rw [listMinQ]; exact List.mem_cons_of_mem _ h1

theorem listMaxQ_mem (l : List ℚ) (h : l ≠ []) : listMaxQ l ∈ l := by
  cases l with
  | nil => exact absurd rfl h
  | cons a xs =>
    rcases foldl_max_mem xs a with h1 | h1
    · rw [listMaxQ, h1]; exact List.mem_cons_self _ _
    · rw [listMaxQ]; exact List.mem_cons_of_mem _ h1

/-- The values the text plot scales over: every optimistic and pessimistic
duration of the series (`opt_min` and `pes_min`, server.py lines 111-112). -/
def seriesVals (tbl : RTable) : List ℚ :=
  (buildRows tbl).map Row.optimistic_min ++ (buildRows tbl).map Row.pessimistic_min

theorem flat_iff_minmax (opt pes : List ℚ) (ho : opt ≠ []) (hp : pes ≠ []) :
    max (listMaxQ opt) (listMaxQ pes) = min (listMinQ opt) (listMinQ pes)
      ↔ ∀ x ∈ opt ++ pes, ∀ y ∈ opt ++ pes, x = y := by
  have hbounds : ∀ x ∈ opt ++ pes,
      min (listMinQ opt) (listMinQ pes) ≤ x
        ∧ x ≤ max (listMaxQ opt) (listMaxQ pes) := by
    intro x hx
    rcases List.mem_append.mp hx with h | h
    · exact ⟨le_trans (min_le_left _ _) (listMinQ_le opt x h),
        le_trans (listMaxQ_ge opt x h) (le_max_left _ _)⟩
    · exact ⟨le_trans (min_le_right _ _) (listMinQ_le pes x h),
        le_trans (listMaxQ_ge pes x h) (le_max_right _ _)⟩
  constructor
  · intro h x hx y hy
    have hx' : x = min (listMinQ opt) (listMinQ pes) :=
      le_antisymm (h ▸ (hbounds x hx).2) (hbounds x hx).1
    have hy' : y = min (listMinQ opt) (listMinQ pes) :=
      le_antisymm (h ▸ (hbounds y hy).2) (hbounds y hy).1
    rw [hx', hy']
  · intro hall
    have h1 : min (listMinQ opt) (listMinQ pes) ∈ opt ++ pes := by
      rcases min_choice (listMinQ opt) (listMinQ pes) with h | h <;> rw [h]
      · exact List.mem_append_left _ (listMinQ_mem opt ho)
      · exact List.mem_append_right _ (listMinQ_mem pes hp)
    have h2 : max (listMaxQ opt) (listMaxQ pes) ∈ opt ++ pes := by
      rcases max_choice (listMaxQ opt) (listMaxQ pes) with h | h <;> rw [h]
      · exact List.mem_append_left _ (listMaxQ_mem opt ho)
      · exact List.mem_append_right _ (listMaxQ_mem pes hp)
    exact hall _ h2 _ h1

/-- C10: the text plot's `scale` divides by `max_val - min_val` over all
optimistic and pessimistic values; on a nonempty series this raises
ZeroDivisionError exactly when every one of those values is equal (a flat
series, including a single point with optimistic = pessimistic), and the
exception escapes `eta_series`, which has no handler; when some two values
differ, no exception is raised. -/
theorem text_plot_zero_division (tbl : RTable) (hne : buildRows tbl ≠ []) :
    (eta_series tbl = Except.error PyException.zeroDivisionError
      ↔ ∀ x ∈ seriesVals tbl, ∀ y ∈ seriesVals tbl, x = y)
    ∧ ((∃ x ∈ seriesVals tbl, ∃ y ∈ seriesVals tbl, x ≠ y) →
        ∃ res, eta_series tbl = Except.ok res) := by
  obtain ⟨r, rs, hrows⟩ : ∃ r rs, buildRows tbl = r :: rs := by
    cases hb : buildRows tbl with
    | nil => exact absurd hb hne
    | cons a l => exact ⟨a, l, rfl⟩
  have homap : (buildRows tbl).map Row.optimistic_min ≠ [] := by
    rw [hrows]; simp
  have hpmap : (buildRows tbl).map Row.pessimistic_min ≠ [] := by
    rw [hrows]; simp
  have hflat := flat_iff_minmax _ _ homap hpmap
  have heval_flat : max (listMaxQ ((buildRows tbl).map Row.optimistic_min))
        (listMaxQ ((buildRows tbl).map Row.pessimistic_min))
      = min (listMinQ ((buildRows tbl).map Row.optimistic_min))
        (listMinQ ((buildRows tbl).map Row.pessimistic_min)) →
      eta_series tbl = Except.error PyException.zeroDivisionError := by
    intro hmm
    rw [hrows] at hmm
    simp only [List.map_cons] at hmm
    simp only [eta_series, hrows, List.map_cons, List.zipWith_cons_cons,
      generate_simple_text_plot]
    rw [if_pos hmm]
  have heval_ok : max (listMaxQ ((buildRows tbl).map Row.optimistic_min))
        (listMaxQ ((buildRows tbl).map Row.pessimistic_min))
      ≠ min (listMinQ ((buildRows tbl).map Row.optimistic_min))
        (listMinQ ((buildRows tbl).map Row.pessimistic_min)) →
      ∃ res, eta_series tbl = Except.ok res := by
    intro hmm
    rw [hrows] at hmm
    simp only [List.map_cons] at hmm
    simp only [eta_series, hrows, List.map_cons, List.zipWith_cons_cons,
      generate_simple_text_plot]
    rw [if_neg hmm]
    exact ⟨_, rfl⟩
  constructor
  · constructor
    · intro herr
      simp only [seriesVals]
      by_cases hmm : max (listMaxQ ((buildRows tbl).map Row.optimistic_min))
          (listMaxQ ((buildRows tbl).map Row.pessimistic_min))
        = min (listMinQ ((buildRows tbl).map Row.optimistic_min))
          (listMinQ ((buildRows tbl).map Row.pessimistic_min))
      · exact hflat.mp hmm
      · obtain ⟨res, hres⟩ := heval_ok hmm
        rw [hres] at herr
        exact absurd herr (by simp)
    · intro hall
      apply heval_flat
      apply hflat.mpr
      simpa [seriesVals] using hall
  · rintro ⟨x, hx, y, hy, hxy⟩
    apply heval_ok
    intro hmm
    apply hxy
    have hall := hflat.mp hmm
    simp only [seriesVals] at hx hy
    exact hall x hx y hy

theorem text_plot_zero_division_witness :
    eta_series (runEngine (fun _ _ => some 7) (mkTasks [0])).1
      = Except.error PyException.zeroDivisionError :=
  (text_plot_zero_division (runEngine (fun _ _ => some 7) (mkTasks [0])).1
      (by decide)).1.mpr (by decide)

theorem getD_eq_of_lt {α : Type} (l : List α) (d : α) (n : Nat)
    (h : n < l.length) : l.getD n d = l[n] := by
  rw [List.getD_eq_getElem?_getD, List.getElem?_eq_getElem h, Option.getD_some]

theorem avgListOf_length (rows : List Row) :
    (avgListOf rows).length = rows.length := by
  simp [avgListOf]

theorem avgListOf_ne_nil (rows : List Row) (h : rows ≠ []) :
    avgListOf rows ≠ [] := by
  intro hcon
  apply h
  have h1 : (avgListOf rows).length = 0 := by rw [hcon]; rfl
  rw [avgListOf_length] at h1
  exact List.length_eq_zero.mp h1

/-- C6 counterexample input: a two-instant run with durations
`(10.0, 10.1)` and `(10.1, 10.1)`.  The unrounded averages are `10.05` and
`10.1`; the stored difference is `round(0.05, 1) = 0.0`, which equals
neither the difference of the stored (rounded) averages
`10.1 - 10.0 = 0.1` nor the exact difference `0.05`. -/
def cexFetch : Nat → FetchTask → Option ℚ := fun _ t =>
  some (if t.instant = 0 then
    (if t.model = TrafficModel.optimistic then 10 else 101 / 10)
  else 101 / 10)

def cexRows : List Row := buildRows (runEngine cexFetch (mkTasks [0, 15])).1

theorem roundHalfEven_floor_form (q : ℚ) :
    roundHalfEven q
      = if q - (⌊q⌋ : ℚ) < 1 / 2 then ⌊q⌋
        else if 1 / 2 < q - (⌊q⌋ : ℚ) then ⌊q⌋ + 1
        else if ⌊q⌋ % 2 = 0 then ⌊q⌋ else ⌊q⌋ + 1 := by
  simp only [roundHalfEven, ← Rat.floor_def]

theorem round1_of_half : round1 (1 / 20) = 0 := by
  have h10 : (1 / 20 : ℚ) * 10 = 1 / 2 := by norm_num
  have hfl : ⌊(1 / 2 : ℚ)⌋ = 0 := by
    rw [Int.floor_eq_iff]
    constructor <;> norm_num
  rw [round1, h10, roundHalfEven_floor_form, hfl]
  norm_num

theorem round1_of_tenfive : round1 (201 / 20) = 10 := by
  have h10 : (201 / 20 : ℚ) * 10 = 201 / 2 := by norm_num
  have hfl : ⌊(201 / 2 : ℚ)⌋ = 100 := by
    rw [Int.floor_eq_iff]
    constructor <;> norm_num
  rw [round1, h10, roundHalfEven_floor_form, hfl]
  norm_num

theorem round1_of_exact : round1 (101 / 10) = 101 / 10 := by
  have h10 : (101 / 10 : ℚ) * 10 = 101 := by norm_num
  have hfl : ⌊(101 : ℚ)⌋ = 101 := by
    rw [Int.floor_eq_iff]
    constructor <;> norm_num
  rw [round1, h10, roundHalfEven_floor_form, hfl]
  norm_num

/-- C6, counterexample: on `cexRows` the reported `time_difference_min`
(`0.0`) differs both from worst's stored average minus best's stored
average (`0.1`) and from worst's exact average minus best's exact average
(`0.05`): the claimed equality fails on the code. -/
theorem insights_difference_counterexample :
    (insightsOf cexRows).time_difference_min
        ≠ (insightsOf cexRows).worst_time.average_min
          - (insightsOf cexRows).best_time.average_min
    ∧ (insightsOf cexRows).time_difference_min
        ≠ (avgListOf cexRows).getD (idxOfMaxQ (avgListOf cexRows)) 0
          - (avgListOf cexRows).getD (idxOfMinQ (avgListOf cexRows)) 0 := by
  have havg : avgListOf cexRows = [201 / 20, 101 / 10] := by
    show [((10 : ℚ) + 101 / 10) / 2, ((101 / 10 : ℚ) + 101 / 10) / 2] = _
    norm_num
  have hmi : idxOfMinQ (avgListOf cexRows) = 0 := by
    rw [havg]
    have hminv : listMinQ [(201 : ℚ) / 20, 101 / 10] = 201 / 20 := by
      show min ((201 : ℚ) / 20) (101 / 10) = 201 / 20
      exact min_eq_left (by norm_num)
    rw [idxOfMinQ, hminv]
    simp [List.findIdx_cons]
  have hma : idxOfMaxQ (avgListOf cexRows) = 1 := by
    rw [havg]
    have hmaxv : listMaxQ [(201 : ℚ) / 20, 101 / 10] = 101 / 10 := by
      show max ((201 : ℚ) / 20) (101 / 10) = 101 / 10
      exact max_eq_right (by norm_num)
    rw [idxOfMaxQ, hmaxv]
    norm_num [List.findIdx_cons]
  have hdiff : (insightsOf cexRows).time_difference_min = 0 := by
    have h1 : (insightsOf cexRows).time_difference_min
        = round1 ((avgListOf cexRows).getD (idxOfMaxQ (avgListOf cexRows)) 0
          - (avgListOf cexRows).getD (idxOfMinQ (avgListOf cexRows)) 0) := rfl
    rw [h1, hmi, hma, havg]
    simp only [List.getD_cons_succ, List.getD_cons_zero]
    rw [show (101 / 10 : ℚ) - 201 / 20 = 1 / 20 from by norm_num]
    exact round1_of_half
  have hworst : (insightsOf cexRows).worst_time.average_min = 101 / 10 := by
    have h1 : (insightsOf cexRows).worst_time.average_min
        = round1 ((avgListOf cexRows).getD (idxOfMaxQ (avgListOf cexRows)) 0) :=
      rfl
    rw [h1, hma, havg]
    simp only [List.getD_cons_succ, List.getD_cons_zero]
    exact round1_of_exact
  have hbest : (insightsOf cexRows).best_time.average_min = 10 := by
    have h1 : (insightsOf cexRows).best_time.average_min
        = round1 ((avgListOf cexRows).getD (idxOfMinQ (avgListOf cexRows)) 0) :=
      rfl
    rw [h1, hmi, havg]
    simp only [List.getD_cons_zero]
    exact round1_of_tenfive
  constructor
  · rw [hdiff, hworst, hbest]
    norm_num
  · rw [hdiff, hmi, hma, havg]
    simp only [List.getD_cons_succ, List.getD_cons_zero]
    norm_num

/-- C6, amended: `best_time` is the series entry at the first index whose
unrounded average `(optimistic + pessimistic) / 2` is minimal and
`worst_time` the entry at the first index whose unrounded average is
maximal — so, with instants ascending, ties resolve to the earliest
instant, best's average is ≤ every entry's average and worst's is ≥ every
entry's average; the reported averages are rounded to one decimal, and
`time_difference_min` is the rounding to one decimal of (worst's exact
average − best's exact average), which need not equal the difference of
the reported averages. -/
theorem insights_extremes (rows : List Row) (hne : rows ≠ [])
    (hsorted : (rows.map Row.departure).Sorted (· < ·)) :
    idxOfMinQ (avgListOf rows) < rows.length
    ∧ idxOfMaxQ (avgListOf rows) < rows.length
    ∧ (insightsOf rows).best_time.departure
        = (rows.getD (idxOfMinQ (avgListOf rows)) defaultRow).departure
    ∧ (insightsOf rows).worst_time.departure
        = (rows.getD (idxOfMaxQ (avgListOf rows)) defaultRow).departure
    ∧ (∀ j, j < rows.length →
        (avgListOf rows).getD (idxOfMinQ (avgListOf rows)) 0
          ≤ (avgListOf rows).getD j 0)
    ∧ (∀ j, j < rows.length →
        (avgListOf rows).getD j 0
          ≤ (avgListOf rows).getD (idxOfMaxQ (avgListOf rows)) 0)
    ∧ (∀ j, j < rows.length →
        (avgListOf rows).getD j 0
            = (avgListOf rows).getD (idxOfMinQ (avgListOf rows)) 0 →
        (rows.getD (idxOfMinQ (avgListOf rows)) defaultRow).departure
          ≤ (rows.getD j defaultRow).departure)
    ∧ (∀ j, j < rows.length →
        (avgListOf rows).getD j 0
            = (avgListOf rows).getD (idxOfMaxQ (avgListOf rows)) 0 →
        (rows.getD (idxOfMaxQ (avgListOf rows)) defaultRow).departure
          ≤ (rows.getD j defaultRow).departure)
    ∧ (insightsOf rows).best_time.average_min
        = round1 ((avgListOf rows).getD (idxOfMinQ (avgListOf rows)) 0)
    ∧ (insightsOf rows).worst_time.average_min
        = round1 ((avgListOf rows).getD (idxOfMaxQ (avgListOf rows)) 0)
    ∧ (insightsOf rows).time_difference_min
        = round1 ((avgListOf rows).getD (idxOfMaxQ (avgListOf rows)) 0
            - (avgListOf rows).getD (idxOfMinQ (avgListOf rows)) 0) := by
  have hanne : avgListOf rows ≠ [] := avgListOf_ne_nil rows hne
  have hexmin : ∃ x ∈ avgListOf rows,
      (fun x => decide (x = listMinQ (avgListOf rows))) x = true :=
    ⟨listMinQ (avgListOf rows), listMinQ_mem _ hanne, by simp⟩
  have hexmax : ∃ x ∈ avgListOf rows,
      (fun x => decide (x = listMaxQ (avgListOf rows))) x = true :=
    ⟨listMaxQ (avgListOf rows), listMaxQ_mem _ hanne, by simp⟩
  have hmi_lt : idxOfMinQ (avgListOf rows) < (avgListOf rows).length :=
    List.findIdx_lt_length_of_exists hexmin
  have hma_lt : idxOfMaxQ (avgListOf rows) < (avgListOf rows).length :=
    List.findIdx_lt_length_of_exists hexmax
  have hmi_lt' : idxOfMinQ (avgListOf rows) < rows.length := by
    rw [← avgListOf_length rows]; exact hmi_lt
  have hma_lt' : idxOfMaxQ (avgListOf rows) < rows.length := by
    rw [← avgListOf_length rows]; exact hma_lt
  have hvalmin : (avgListOf rows).getD (idxOfMinQ (avgListOf rows)) 0
      = listMinQ (avgListOf rows) := by
    rw [getD_eq_of_lt _ _ _ hmi_lt]
    exact of_decide_eq_true (List.findIdx_getElem (w := hmi_lt))
  have hvalmax : (avgListOf rows).getD (idxOfMaxQ (avgListOf rows)) 0
      = listMaxQ (avgListOf rows) := by
    rw [getD_eq_of_lt _ _ _ hma_lt]
    exact of_decide_eq_true (List.findIdx_getElem (w := hma_lt))
  have hdep : ∀ j k, j < rows.length → k < rows.length → j ≤ k →
      (rows.getD j defaultRow).departure ≤ (rows.getD k defaultRow).departure := by
    intro j k hj hk hjk
    rcases Nat.lt_or_ge j k with hlt | hge
    · have hmaplen : j < (rows.map Row.departure).length := by
        rw [List.length_map]; exact hj
      have hmaplen' : k < (rows.map Row.departure).length := by
        rw [List.length_map]; exact hk
      have hpw := List.pairwise_iff_getElem.mp hsorted j k hmaplen hmaplen' hlt
      rw [List.getElem_map, List.getElem_map] at hpw
      rw [getD_eq_of_lt _ _ _ hj, getD_eq_of_lt _ _ _ hk]
      exact le_of_lt hpw
    · have hjk' : j = k := by omega
      subst hjk'
      exact le_refl _
  refine ⟨hmi_lt', hma_lt', rfl, rfl, ?_, ?_, ?_, ?_, rfl, rfl, rfl⟩
  · intro j hj
    have hj' : j < (avgListOf rows).length := by
      rw [avgListOf_length]; exact hj
    rw [hvalmin, getD_eq_of_lt _ _ _ hj']
    exact listMinQ_le _ _ (List.getElem_mem hj')
  · intro j hj
    have hj' : j < (avgListOf rows).length := by
      rw [avgListOf_length]; exact hj
    rw [hvalmax, getD_eq_of_lt _ _ _ hj']
    exact listMaxQ_ge _ _ (List.getElem_mem hj')
  · intro j hj heq
    apply hdep _ _ hmi_lt' hj
    by_contra hcon
    have hlt : j < idxOfMinQ (avgListOf rows) := by omega
    have hj' : j < (avgListOf rows).length := by
      rw [avgListOf_length]; exact hj
    have hfalse := List.not_of_lt_findIdx hlt
    rw [decide_eq_false_iff_not] at hfalse
    apply hfalse
    rw [← getD_eq_of_lt _ (0 : ℚ) _ hj', heq, hvalmin]
  · intro j hj heq
    apply hdep _ _ hma_lt' hj
    by_contra hcon
    have hlt : j < idxOfMaxQ (avgListOf rows) := by omega
    have hj' : j < (avgListOf rows).length := by
      rw [avgListOf_length]; exact hj
    have hfalse := List.not_of_lt_findIdx hlt
    rw [decide_eq_false_iff_not] at hfalse
    apply hfalse
    rw [← getD_eq_of_lt _ (0 : ℚ) _ hj', heq, hvalmax]

theorem insights_extremes_witness :
    cexRows ≠ []
    ∧ idxOfMinQ (avgListOf cexRows) < cexRows.length :=
  ⟨by decide,
   (insights_extremes cexRows (by decide) (by decide)).1⟩

theorem writeIfBlank_other (g : PlotGrid) (rY : Int) (i : Nat) (ch : Char)
    (r : Int) (c : Nat) (hne : c ≠ i) : writeIfBlank g rY i ch r c = g r c := by
  rw [writeIfBlank]
  split <;> simp [gridSet, hne]

theorem writeAvg_other (g : PlotGrid) (rY : Int) (i : Nat) (r : Int) (c : Nat)
    (hne : c ≠ i) : writeAvg g rY i r c = g r c := by
  rw [writeAvg]
  split
  · simp [gridSet, hne]
  · split <;> simp [gridSet, hne]

theorem paintCol_other (g : PlotGrid) (i : Nat) (oY pY aY : Int) (r : Int)
    (c : Nat) (hne : c ≠ i) : paintCol g i oY pY aY r c = g r c := by
  rw [paintCol, writeAvg_other _ _ _ _ _ hne, writeIfBlank_other _ _ _ _ _ _ hne,
    writeIfBlank_other _ _ _ _ _ _ hne]

/-- In a column whose cells are all blank, the three writes of the source
resolve to: average marker, else pessimistic, else optimistic, else
blank — the pessimistic marker wins a pessimistic/optimistic coincidence
(first writer), and the average marker overrides both. -/
theorem paintCol_self (g : PlotGrid) (i : Nat) (oY pY aY : Int)
    (hblank : ∀ r, g r i = ' ') (r : Int) :
    paintCol g i oY pY aY r i
      = if r = aY then '*' else if r = pY then 'o' else if r = oY then '+'
        else ' ' := by
  by_cases hop : oY = pY <;> by_cases hao : aY = oY <;> by_cases hap : aY = pY <;>
    by_cases hra : r = aY <;> by_cases hrp : r = pY <;> by_cases hro : r = oY <;>
    simp_all [paintCol, writeIfBlank, writeAvg, gridSet, hblank]

theorem foldPaint_spec (oYf pYf aYf : Nat → Int) :
    ∀ (l : List Nat) (g : PlotGrid),
      (∀ i ∈ l, ∀ r, g r i = ' ') → l.Nodup →
      ∀ (r : Int) (c : Nat),
        (l.foldl (fun g' i => paintCol g' i (oYf i) (pYf i) (aYf i)) g) r c
          = if c ∈ l then
              (if r = aYf c then '*' else if r = pYf c then 'o'
               else if r = oYf c then '+' else ' ')
            else g r c := by
  intro l
  induction l with
  | nil => intro g hb hnd r c; simp
  | cons i l ih =>
    intro g hb hnd r c
    rw [List.foldl_cons]
    have hnd' := (List.nodup_cons.mp hnd).2
    have hni := (List.nodup_cons.mp hnd).1
    have hb' : ∀ j ∈ l, ∀ r',
        paintCol g i (oYf i) (pYf i) (aYf i) r' j = ' ' := by
      intro j hj r'
      rw [paintCol_other g i _ _ _ r' j (by
        intro hcon
        subst hcon
        exact hni hj)]
      exact hb j (List.mem_cons_of_mem _ hj) r'
    rw [ih _ hb' hnd']
    by_cases hc : c ∈ l
    · rw [if_pos hc, if_pos (List.mem_cons_of_mem _ hc)]
    · rw [if_neg hc]
      by_cases hci : c = i
      · subst hci
        rw [if_pos (List.mem_cons_self _ _)]
        exact paintCol_self g c _ _ _ (hb c (List.mem_cons_self _ _)) r
      · rw [paintCol_other g i _ _ _ r c hci, if_neg (by
          intro hcon
          rcases List.mem_cons.mp hcon with h | h
          · exact hci h
          · exact hc h)]

/-- Spec-side draw-priority function, following the claim's wording: the
worst marker (written last) beats everything, then the best marker, then
the average marker, then the pessimistic marker (drawn first, it wins a
coincidence with the optimistic marker), then the optimistic marker, and
blank elsewhere; columns beyond the series are blank. -/
def drawPriorityChar (opt pes avg : List ℚ) (minIdx maxIdx : Nat)
    (minv maxv : ℚ) (r : Int) (c : Nat) : Char :=
  if c = maxIdx ∧ r = rowY minv maxv (avg.getD maxIdx 0) then 'W'
  else if c = minIdx ∧ r = rowY minv maxv (avg.getD minIdx 0) then 'B'
  else if c < opt.length ∧ r = rowY minv maxv (avg.getD c 0) then '*'
  else if c < opt.length ∧ r = rowY minv maxv (pes.getD c 0) then 'o'
  else if c < opt.length ∧ r = rowY minv maxv (opt.getD c 0) then '+'
  else ' '

/-- C7: every cell of the rendered marker grid obeys the fixed draw
order — per column pessimistic is drawn before optimistic before average
with first-writer-wins on a pessimistic/optimistic coincidence and the
average marker overriding either, and the best/worst markers are applied
last, overriding any series marker at their cells (worst after best). -/
theorem text_plot_marker_priority (opt pes avg : List ℚ)
    (minIdx maxIdx : Nat) (minv maxv : ℚ)
    (hmi : minIdx < opt.length) (hma : maxIdx < opt.length) :
    ∀ (r : Int) (c : Nat),
      plotGridOf opt pes avg minIdx maxIdx minv maxv r c
        = drawPriorityChar opt pes avg minIdx maxIdx minv maxv r c := by
  intro r c
  have hfold := foldPaint_spec
    (fun i => rowY minv maxv (opt.getD i 0))
    (fun i => rowY minv maxv (pes.getD i 0))
    (fun i => rowY minv maxv (avg.getD i 0))
    (List.range opt.length) blankGrid
    (fun i _ r' => rfl) (List.nodup_range _) r c
  simp only [List.mem_range, blankGrid] at hfold
  simp only [plotGridOf, gridSet, drawPriorityChar, hfold]
  rcases Nat.lt_or_ge c opt.length with hcl | hcl
  · by_cases h1 : c = maxIdx <;>
      by_cases h2 : r = rowY minv maxv (avg.getD maxIdx 0) <;>
      by_cases h3 : c = minIdx <;>
      by_cases h4 : r = rowY minv maxv (avg.getD minIdx 0) <;>
      simp_all [hmi, hma]
  · have hne1 : ¬ (c = maxIdx) := by omega
    have hne2 : ¬ (c = minIdx) := by omega
    have hncl : ¬ (c < opt.length) := by omega
    simp [hne1, hne2, hncl]

theorem text_plot_marker_priority_witness :
    (0 : Nat) < ([10, 12] : List ℚ).length
    ∧ ∀ (r : Int) (c : Nat),
        plotGridOf [10, 12] [14, 16] [12, 14] 0 1 10 16 r c
          = drawPriorityChar [10, 12] [14, 16] [12, 14] 0 1 10 16 r c :=
  ⟨by decide,
   text_plot_marker_priority [10, 12] [14, 16] [12, 14] 0 1 10 16
     (by decide) (by decide)⟩

end GmapTime
